import Mathlib

/-!
Shallow embedding of the AI Career Advisor system (decision-tree skill
assessment, course search / ranking / caching pipeline).  Pure functions of
the source are translated directly; stateful pieces (the result cache, the
GUI assessment state) are modelled by explicit state passing.  Python floats
are modelled by `ℚ`; timestamps are rationals measured in seconds; network
fetch results are explicit parameters (the fetch itself is an external
collaborator).
-/

namespace CareerAdvisor

/-! ### String utilities

Python string operations used by the pipeline, modelled over `List Char`.
`lowerStr` models `str.lower`, `containsSubstr` models the Python `in`
substring test, `splitWhitespace` models `str.split()` (split on whitespace
runs, dropping empty pieces), `titleCase` models `str.title()`.
Non-ASCII case mapping is out of scope (all table strings are ASCII). -/

def lowerStr (s : String) : String :=
  String.mk (s.toList.map Char.toLower)

def leadMatch : List Char → List Char → Bool
  | [], _ => true
  | _ :: _, [] => false
  | a :: as, b :: bs => a == b && leadMatch as bs

def isSub (needle : List Char) : List Char → Bool
  | [] => needle.isEmpty
  | c :: rest => leadMatch needle (c :: rest) || isSub needle rest

/-- Python `needle in hay` for strings: contiguous-substring containment. -/
def containsSubstr (hay needle : String) : Bool :=
  isSub needle.toList hay.toList

def splitWhitespaceAux (cur : List Char) : List Char → List (List Char)
  | [] => if cur.isEmpty then [] else [cur.reverse]
  | c :: rest =>
    if c.isWhitespace then
      if cur.isEmpty then splitWhitespaceAux [] rest
      else cur.reverse :: splitWhitespaceAux [] rest
    else splitWhitespaceAux (c :: cur) rest

def splitWhitespace (s : String) : List String :=
  (splitWhitespaceAux [] s.toList).map String.mk

def titleCaseAux : Bool → List Char → List Char
  | _, [] => []
  | prevAlpha, c :: rest =>
    (if c.isAlpha then (if prevAlpha then c.toLower else c.toUpper) else c)
      :: titleCaseAux c.isAlpha rest

def titleCase (s : String) : String :=
  String.mk (titleCaseAux false s.toList)

/-! ### Title cleaning (`RealCourseSearchAgent._clean_title`)

The source applies `re.sub(r'[^\w\s]', ' ', title)` (every character that is
neither a word character nor whitespace becomes a space; `\w` is alphanumeric
OR underscore), then `re.sub(r'\s+', ' ', ...)` (each maximal whitespace run
becomes a single space), then `.strip()`. -/

/-- Python regex `\w` (word character), ASCII fragment: alphanumeric or
underscore.  Note that underscore is a word character, so `re.sub(r'[^\w\s]')`
does NOT replace it. -/
def isWordChar (c : Char) : Bool :=
  c.isAlphanum || c == '_'

/-- `re.sub(r'[^\w\s]', ' ', ·)` over the character list. -/
def substNonWord (cs : List Char) : List Char :=
  cs.map (fun c => if isWordChar c || c.isWhitespace then c else ' ')

/-- `re.sub(r'\s+', ' ', ·)`: each maximal whitespace run collapses to one
space.  The Boolean flag records whether the previous character was
whitespace (i.e. we are inside a run whose space was already emitted). -/
def collapseWs : Bool → List Char → List Char
  | _, [] => []
  | prevWs, c :: rest =>
    if c.isWhitespace then
      if prevWs then collapseWs true rest
      else ' ' :: collapseWs true rest
    else c :: collapseWs false rest

/-- Python `str.strip()`: drop leading and trailing whitespace. -/
def stripWs (cs : List Char) : List Char :=
  ((cs.dropWhile Char.isWhitespace).reverse.dropWhile Char.isWhitespace).reverse

/-- `RealCourseSearchAgent._clean_title`. -/
def cleanTitle (title : String) : String :=
  String.mk (stripWs (collapseWs false (substNonWord title.toList)))

/-! ### Course data model

`CourseCandidate` dictionaries from the source.  `rating` and
`enrollment_count` are read with `dict.get` defaults (`4.0` resp. `0`) in the
ranking code, so they are `Option`-valued here; `price` is compared against
the exact string `"Free"`. -/

structure Course where
  title : String
  url : String
  provider : String
  level : String
  rating : Option ℚ
  duration : String
  instructors : List String
  enrollmentCount : Option ℕ
  price : String
  language : String
  score : ℚ
  searchedFor : String
deriving DecidableEq, Repr

/-! ### Ranking engine (`RealCourseSearchAgent._rank_courses` and helpers) -/

/-- `RealCourseSearchAgent._get_provider_score`: fixed credibility lookup,
default `0.5` for unknown providers. -/
def getProviderScore (provider : String) : ℚ :=
  if provider = "YouTube" then 3/2
  else if provider = "GitHub" then 6/5
  else if provider = "Career Guidance" then 4/5
  else if provider = "Skills Academy" then 4/5
  else 1/2

/-- `RealCourseSearchAgent._calculate_relevance_score`. -/
def calculateRelevanceScore (course : Course) (career : String) : ℚ :=
  let title := lowerStr course.title
  let careerLower := lowerStr career
  if containsSubstr title careerLower then 2
  else if (splitWhitespace careerLower).any (fun word => containsSubstr title word) then 3/2
  else 1/2

/-- Python `round(x, 2)` modelled over `ℚ` (round to two decimal places;
Python's float `round` ties-to-even never fires in the claims proved here). -/
def round2 (q : ℚ) : ℚ :=
  (round (q * 100) : ℚ) / 100

/-- The five-part score sum of `_rank_courses`, before rounding. -/
def rawScore (course : Course) (career : String) : ℚ :=
  getProviderScore course.provider
    + course.rating.getD 4 * (3/2)
    + min ((course.enrollmentCount.getD 0 : ℚ) / 50000) 2
    + (if course.price = "Free" then 2 else 1/2)
    + calculateRelevanceScore course career

/-- Descending-score comparison used by
`sorted(scored_courses, key=lambda x: x["score"], reverse=True)`. -/
def scoreGE (a b : Course) : Prop :=
  b.score ≤ a.score

instance : DecidableRel scoreGE :=
  fun a b => inferInstanceAs (Decidable (b.score ≤ a.score))

instance : IsTotal Course scoreGE :=
  ⟨fun a b => le_total b.score a.score⟩

instance : IsTrans Course scoreGE :=
  ⟨fun _ _ _ h1 h2 => le_trans h2 h1⟩

/-- `RealCourseSearchAgent._rank_courses`: store the rounded five-part score
on each course, then stable-sort descending by score.  (`user_level` is a
parameter of the source method, unused by its body.) -/
def rankCourses (courses : List Course) (userLevel career : String) : List Course :=
  if courses.isEmpty then []
  else
    List.insertionSort scoreGE
      (courses.map (fun course => { course with score := round2 (rawScore course career) }))

/-! ### Decision tree (`DynamicDecisionAgent`) -/

structure Edge where
  threshold : ℚ
  next : String
deriving DecidableEq, Repr

structure TreeNode where
  question : String
  answers : List (String × Edge)
deriving DecidableEq, Repr

/-- The decision tree: nodes keyed by identifier, with the `answers` edges in
Python-dict insertion order. -/
abbrev DecisionTree := List (String × TreeNode)

/-- `DynamicDecisionAgent.get_default_tree`, with the edges listed in their
declaration order. -/
def getDefaultTree : DecisionTree :=
  [ ("Math",
     { question := "🔢 Rate your Math skills (0.0 - 1.0):",
       answers := [("high", ⟨7/10, "Math_High"⟩), ("medium", ⟨4/10, "Math_Med"⟩),
                   ("low", ⟨0, "Math_Low"⟩)] }),
    ("Math_High",
     { question := "💻 Rate your Programming skills (0.0 - 1.0):",
       answers := [("high", ⟨5/10, "HighProg"⟩), ("low", ⟨0, "HighPhys"⟩)] }),
    ("HighProg",
     { question := "🤖 Rate your interest in Data/AI (0.0 - 1.0):",
       answers := [("high", ⟨6/10, "Data Scientist"⟩), ("low", ⟨0, "Software Engineer"⟩)] }),
    ("HighPhys",
     { question := "⚛️ Rate your Physics/Engineering knowledge (0.0 - 1.0):",
       answers := [("low", ⟨6/10, "Research Scientist"⟩), ("high", ⟨0, "Engineer"⟩)] }),
    ("Math_Med",
     { question := "🎨 Rate your Design/Creativity skills (0.0 - 1.0):",
       answers := [("high", ⟨5/10, "MedDesign"⟩), ("low", ⟨0, "MedBio"⟩)] }),
    ("MedDesign",
     { question := "👥 Rate your Communication/Teamwork skills (0.0 - 1.0):",
       answers := [("high", ⟨6/10, "UI/UX Designer"⟩), ("low", ⟨0, "Graphic Designer"⟩)] }),
    ("MedBio",
     { question := "🧬 Rate your Biology/Health knowledge (0.0 - 1.0):",
       answers := [("high", ⟨6/10, "Healthcare Specialist"⟩), ("low", ⟨0, "Project Manager"⟩)] }),
    ("Math_Low",
     { question := "💬 Rate your Communication/People skills (0.0 - 1.0):",
       answers := [("high", ⟨5/10, "LowComm"⟩), ("low", ⟨0, "LowHands"⟩)] }),
    ("LowComm",
     { question := "👑 Rate your Leadership ability (0.0 - 1.0):",
       answers := [("high", ⟨6/10, "Manager / HR Specialist"⟩),
                   ("low", ⟨0, "Journalist / Public Speaker"⟩)] }),
    ("LowHands",
     { question := "🔧 Rate your Practical/Technical skills (0.0 - 1.0):",
       answers := [("high", ⟨6/10, "Technician"⟩), ("low", ⟨0, "Sales Assistant"⟩)] }) ]

/-- The `for answer_key, answer in node["answers"].items()` loop of
`navigate_tree`: first edge (in declaration order) whose threshold is met. -/
def firstMatch (answers : List (String × Edge)) (userInput : ℚ) : Option String :=
  match answers with
  | [] => none
  | (_, edge) :: rest =>
    if edge.threshold ≤ userInput then some edge.next else firstMatch rest userInput

/-- `DynamicDecisionAgent.navigate_tree`. -/
def navigateTree (tree : DecisionTree) (currentNode : String) (userInput : ℚ) : String :=
  match tree.lookup currentNode with
  | none => currentNode
  | some node =>
    match firstMatch node.answers userInput with
    | some nxt => nxt
    | none => currentNode

/-! ### Assessment state and answer processing (`CareerAdvisorApp.process_answer`)

The GUI state relevant to the assessment is the current tree node and the
recorded skill ratings.  `process_answer` validates the rating range before
touching either; an out-of-range rating raises `ValueError`, which is caught
and reported via a message box, leaving the state untouched. -/

structure AppState where
  currentNode : String
  userSkills : List (String × ℚ)
deriving DecidableEq, Repr

/-- `CareerAdvisorApp.extract_skill_name`. -/
def extractSkillName (node : String) : String :=
  if node = "Math" then "Mathematics"
  else if node = "Math_High" then "Advanced Math"
  else if node = "Math_Med" then "Intermediate Math"
  else if node = "Math_Low" then "Basic Math"
  else if node = "HighProg" then "Programming"
  else if node = "HighPhys" then "Physics/Engineering"
  else if node = "MedDesign" then "Design/Creativity"
  else if node = "MedBio" then "Biology/Health"
  else if node = "LowComm" then "Communication"
  else if node = "LowHands" then "Technical Skills"
  else "General Skills"

/-- The error message shown by `process_answer` when the rating is out of
range (the spec's `InvalidInputError`). -/
def invalidInputMsg : String :=
  "Please enter a valid number between 0.0 and 1.0"

/-- `CareerAdvisorApp.process_answer`, given an already-parsed numeric rating:
returns the new state and an optional reported error message. -/
def processAnswer (st : AppState) (rating : ℚ) : AppState × Option String :=
  if ¬(0 ≤ rating ∧ rating ≤ 1) then (st, some invalidInputMsg)
  else
    let skillName := extractSkillName st.currentNode
    ({ currentNode := navigateTree getDefaultTree st.currentNode rating,
       userSkills := (skillName, rating) :: st.userSkills.filter (fun p => p.1 != skillName) },
     none)

/-! ### Result cache (`RealCourseSearchAgent.course_cache`)

`self.course_cache` is a Python dict keyed by `f"{career}_{user_level}"`,
holding `{"courses": ..., "timestamp": ...}`.  It is modelled as an
association list with dict-update semantics (a key occurs at most once
because updates erase prior bindings); "now" is an explicit parameter. -/

structure CacheEntry where
  courses : List Course
  timestamp : ℚ
deriving DecidableEq, Repr

abbrev Cache := List (String × CacheEntry)

/-- `timedelta(weeks=1)` in seconds (`self.cache_expiry`). -/
def cacheExpiry : ℚ := 7 * 24 * 60 * 60

/-- The `cache_key = f"{career}_{user_level}"` of `search_courses`. -/
def cacheKey (career userLevel : String) : String :=
  career ++ "_" ++ userLevel

/-- `RealCourseSearchAgent._is_cache_too_old`: strictly older than one week. -/
def isCacheTooOld (cache : Cache) (key : String) (now : ℚ) : Bool :=
  match cache.lookup key with
  | some entry => decide (cacheExpiry < now - entry.timestamp)
  | none => false

/-- `RealCourseSearchAgent._is_cache_valid`: strictly younger than the expiry. -/
def isCacheValid (cache : Cache) (key : String) (now : ℚ) : Bool :=
  match cache.lookup key with
  | some entry => decide (now - entry.timestamp < cacheExpiry)
  | none => false

/-- Python `del self.course_cache[cache_key]` (a no-op on an absent key is
never reached in the source, which guards with `in`). -/
def cacheDel (cache : Cache) (key : String) : Cache :=
  cache.filter (fun p => p.1 != key)

/-- `self.course_cache[cache_key] = {...}`: dict update. -/
def cachePut (cache : Cache) (key : String) (courses : List Course) (now : ℚ) : Cache :=
  (key, ⟨courses, now⟩) :: cacheDel cache key

/-- The cache-consultation phase at the top of `search_courses`: evict the
entry if it is older than one week, then return it if still valid.  Yields
the optional hit and the (possibly evicted-from) cache. -/
def cacheGet (cache : Cache) (key : String) (now : ℚ) : Option (List Course) × Cache :=
  let cache1 := if isCacheTooOld cache key now then cacheDel cache key else cache
  if isCacheValid cache1 key now then
    (some ((cache1.lookup key).getD ⟨[], 0⟩).courses, cache1)
  else (none, cache1)

/-! ### Fallback generation (`RealCourseSearchAgent._get_fallback_courses`) -/

def getFallbackCourses (career level : String) : List Course :=
  [ { title := "Introduction to " ++ career ++ " - " ++ titleCase level ++ " Level",
      url := "https://www.youtube.com/results?search_query=career+development",
      provider := "Career Guidance",
      level := level,
      rating := some (9/2),
      duration := "Self-paced",
      instructors := ["Professional Instructors"],
      enrollmentCount := some 10000,
      price := "Free",
      language := "English",
      score := 0,
      searchedFor := "fallback" },
    { title := career ++ " Skills Development Course",
      url := "https://www.youtube.com/results?search_query=professional+skills",
      provider := "Skills Academy",
      level := level,
      rating := some (43/10),
      duration := "4-6 weeks",
      instructors := ["Industry Experts"],
      enrollmentCount := some 15000,
      price := "Free",
      language := "English",
      score := 0,
      searchedFor := "fallback" } ]

/-! ### Search orchestrator (`RealCourseSearchAgent.search_courses`)

The external fetch+parse phases (`_search_youtube`, `_search_github`) perform
network I/O; their outputs are passed in as explicit candidate lists. -/

def searchCourses (cache : Cache) (career : String) (userLevel : String)
    (youtubeCourses githubCourses : List Course) (now : ℚ) : List Course × Cache :=
  let key := cacheKey career userLevel
  match cacheGet cache key now with
  | (some cached, cache1) => (cached, cache1)
  | (none, cache1) =>
    let allCourses := youtubeCourses ++ githubCourses
    let allCourses :=
      if allCourses.length < 20 then allCourses ++ getFallbackCourses career userLevel
      else allCourses
    let topCourses := (rankCourses allCourses userLevel career).take 5
    (topCourses, cachePut cache1 key topCourses now)

/-! ### Result parsers

`_parse_youtube_results` and `_parse_github_results` first extract raw
`(videoId, title)` resp. `(repoPath, title)` pairs with a regex; the regex
machinery itself is the abstraction boundary here and the extracted match
list is the parser input.  The simulated metadata (`random.uniform` /
`random.randint` stand-ins for unavailable real metadata) is supplied by an
explicit oracle per match. -/

def youtubeKeywords : List String :=
  ["tutorial", "course", "learn", "guide", "introduction"]

def githubKeywords : List String :=
  ["learn", "tutorial", "course", "guide", "examples"]

/-- Simulated metadata for a kept YouTube match: (rating, duration, enrollment). -/
abbrev YoutubeMeta := String × String → ℚ × String × ℕ

/-- Simulated metadata for a kept GitHub match: (rating, enrollment). -/
abbrev GithubMeta := String × String → ℚ × ℕ

/-- `RealCourseSearchAgent._parse_youtube_results` on the extracted
`(video_id, title)` matches. -/
def parseYoutubeResults (meta : YoutubeMeta) (rawMatches : List (String × String))
    (searchTerm : String) : List Course :=
  ((rawMatches.take 3).filter (fun m =>
      decide (15 < m.2.length) &&
        youtubeKeywords.any (fun keyword => containsSubstr (lowerStr m.2) keyword))).map
    (fun m =>
      { title := cleanTitle m.2,
        url := "https://www.youtube.com/watch?v=" ++ m.1,
        provider := "YouTube",
        level := "beginner",
        rating := some (meta m).1,
        duration := (meta m).2.1,
        instructors := ["YouTube Instructor"],
        enrollmentCount := some (meta m).2.2,
        price := "Free",
        language := "English",
        score := 0,
        searchedFor := searchTerm })

/-- `RealCourseSearchAgent._parse_github_results` on the extracted
`(repo_path, title)` matches. -/
def parseGithubResults (meta : GithubMeta) (rawMatches : List (String × String))
    (searchTerm : String) : List Course :=
  ((rawMatches.take 2).filter (fun m =>
      githubKeywords.any (fun keyword => containsSubstr (lowerStr m.2) keyword))).map
    (fun m =>
      { title := "GitHub: " ++ m.2,
        url := "https://github.com" ++ m.1,
        provider := "GitHub",
        level := "intermediate",
        rating := some (meta m).1,
        duration := "Self-paced",
        instructors := ["Open Source Community"],
        enrollmentCount := some (meta m).2,
        price := "Free",
        language := "English",
        score := 0,
        searchedFor := searchTerm })

/-! ### Query builder (`RealCourseSearchAgent._get_search_terms`) -/

def careerKeywords : List (String × List String) :=
  [ ("Data Scientist",
     ["data science", "machine learning", "python data analysis", "artificial intelligence"]),
    ("Software Engineer",
     ["programming", "web development", "python programming", "javascript tutorial"]),
    ("UI/UX Designer",
     ["ui design", "ux design", "user experience", "figma tutorial"]),
    ("Graphic Designer",
     ["graphic design", "photoshop tutorial", "illustrator course", "digital design"]),
    ("Project Manager",
     ["project management", "agile methodology", "scrum master", "leadership skills"]),
    ("Healthcare Specialist",
     ["healthcare", "medical education", "public health", "biology basics"]),
    ("Research Scientist",
     ["research methods", "data analysis", "academic research", "scientific methods"]),
    ("Engineer",
     ["engineering", "mechanical engineering", "electrical engineering", "physics concepts"]),
    ("Manager / HR Specialist",
     ["human resources", "management skills", "leadership", "team management"]),
    ("Journalist / Public Speaker",
     ["journalism", "public speaking", "communication skills", "writing skills"]),
    ("Technician",
     ["technical skills", "it support", "computer repair", "hardware tutorial"]),
    ("Sales Assistant",
     ["sales training", "marketing basics", "customer service", "communication skills"]) ]

def levelKeywords : List (String × List String) :=
  [ ("beginner", ["beginner", "fundamentals", "basics", "introduction", "getting started"]),
    ("intermediate", ["intermediate", "advanced", "professional", "deep dive"]),
    ("advanced", ["advanced", "expert", "master", "professional"]) ]

/-- `RealCourseSearchAgent._get_search_terms`.  The final Python
`list(set(search_terms))` removes duplicates; its iteration order is
hash-dependent but fixed within a process, modelled here by `List.dedup`
(the static tables make the deduplication a no-op on all reachable inputs). -/
def getSearchTerms (career level : String) : List String :=
  let baseTerms := (careerKeywords.lookup career).getD [lowerStr career]
  let levelTerms := (levelKeywords.lookup level).getD []
  ((baseTerms.take 2).flatMap (fun base =>
      (levelTerms.take 1).map (fun levelTerm => base ++ " " ++ levelTerm) ++ [base])).dedup

/-! ### General lemmas -/

theorem round2_of_mul_eq {q : ℚ} {a : ℤ} (h : q * 100 = (a : ℚ)) :
    round2 q = (a : ℚ) / 100 := by
  rw [round2, h, round_intCast]

theorem round2_mono {x y : ℚ} (h : x ≤ y) : round2 x ≤ round2 y := by
  rw [round2, round2]
  have hr : round (x * 100) ≤ round (y * 100) := by
    rw [round_eq, round_eq]
    exact Int.floor_le_floor (by linarith)
  have : ((round (x * 100) : ℤ) : ℚ) ≤ ((round (y * 100) : ℤ) : ℚ) := by exact_mod_cast hr
  linarith

theorem round2_add_three_halves (x : ℚ) : round2 (x + 3/2) = round2 x + 3/2 := by
  have h : (x + 3/2) * 100 = x * 100 + ((150 : ℤ) : ℚ) := by push_cast; ring
  rw [round2, h, round_add_int, round2]
  push_cast
  ring

/-- A sample candidate used by concrete witnesses. -/
def sampleCourse : Course :=
  { title := "data scientist course", url := "u", provider := "YouTube",
    level := "beginner", rating := some 4, duration := "d", instructors := [],
    enrollmentCount := some 0, price := "Free", language := "English",
    score := 0, searchedFor := "t" }

/-- A course with its mutable `score` field reset: the non-score frame. -/
def clearScore (c : Course) : Course :=
  { c with score := 0 }

/-! ### C1: score formula, rounding, and descending order -/

/-- C1: For every candidate list and every career label, the ranking
operation assigns each candidate a score equal to the sum of the five
sub-scores (provider-credibility lookup with default 0.5, rating × 1.5 with
rating defaulting to 4.0, min(enrollment/50000, 2.0), 2.0 for exactly
"Free" price else 0.5, and the 2.0 / 1.5 / 0.5 relevance cascade over the
lower-cased title and career label), rounds that sum to 2 decimal places,
stores it on the candidate, and returns the candidates ordered descending
by this score. -/
theorem rankCourses_spec (courses : List Course) (userLevel career : String) :
    List.Sorted scoreGE (rankCourses courses userLevel career) ∧
    ∀ c' ∈ rankCourses courses userLevel career, ∃ c ∈ courses,
      c' = { c with score := round2 (
        getProviderScore c.provider
        + c.rating.getD 4 * (3/2)
        + min ((c.enrollmentCount.getD 0 : ℚ) / 50000) 2
        + (if c.price = "Free" then 2 else 1/2)
        + (if containsSubstr (lowerStr c.title) (lowerStr career) then (2 : ℚ)
           else if (splitWhitespace (lowerStr career)).any
               (fun word => containsSubstr (lowerStr c.title) word) then 3/2
           else 1/2)) } := by
  constructor
  · by_cases h : courses.isEmpty
    · simp [rankCourses, h]
    · rw [rankCourses, if_neg h]
      exact List.sorted_insertionSort scoreGE _
  · intro c' hc'
    by_cases h : courses.isEmpty
    · rw [rankCourses, if_pos h] at hc'
      exact absurd hc' (List.not_mem_nil c')
    · rw [rankCourses, if_neg h, List.mem_insertionSort] at hc'
      obtain ⟨c, hc, rfl⟩ := List.mem_map.mp hc'
      exact ⟨c, hc, rfl⟩

/-- Witness for C1 at a concrete one-course list. -/
theorem rankCourses_spec_witness :
    ({ sampleCourse with score := round2 (rawScore sampleCourse "Data Scientist") })
      ∈ rankCourses [sampleCourse] "beginner" "Data Scientist" ∧
    ∃ c ∈ [sampleCourse],
      ({ sampleCourse with score := round2 (rawScore sampleCourse "Data Scientist") })
        = { c with score := round2 (
            getProviderScore c.provider
            + c.rating.getD 4 * (3/2)
            + min ((c.enrollmentCount.getD 0 : ℚ) / 50000) 2
            + (if c.price = "Free" then 2 else 1/2)
            + (if containsSubstr (lowerStr c.title) (lowerStr "Data Scientist") then (2 : ℚ)
               else if (splitWhitespace (lowerStr "Data Scientist")).any
                   (fun word => containsSubstr (lowerStr c.title) word) then 3/2
               else 1/2)) } := by
  have hmem : ({ sampleCourse with score := round2 (rawScore sampleCourse "Data Scientist") })
      ∈ rankCourses [sampleCourse] "beginner" "Data Scientist" := by
    simp [rankCourses]
  exact ⟨hmem, (rankCourses_spec [sampleCourse] "beginner" "Data Scientist").2 _ hmem⟩

/-! ### C9: monotonicity in rating; Free-vs-paid difference of exactly 1.5 -/

/-- C9: Increasing a candidate's rating (all other fields fixed) never
decreases the computed (rounded) score; switching the price from any
non-"Free" value to exactly "Free" increases the computed score by exactly
1.5, hence strictly. -/
theorem score_monotonicity (c : Course) (career : String) (r1 r2 : ℚ) (p : String)
    (hr : r1 ≤ r2) (hp : p ≠ "Free") :
    round2 (rawScore { c with rating := some r1 } career)
      ≤ round2 (rawScore { c with rating := some r2 } career) ∧
    round2 (rawScore { c with price := "Free" } career)
      = round2 (rawScore { c with price := p } career) + 3/2 ∧
    round2 (rawScore { c with price := p } career)
      < round2 (rawScore { c with price := "Free" } career) := by
  refine ⟨?_, ?_, ?_⟩
  · apply round2_mono
    have h1 : rawScore { c with rating := some r1 } career
        = getProviderScore c.provider + r1 * (3/2)
          + min ((c.enrollmentCount.getD 0 : ℚ) / 50000) 2
          + (if c.price = "Free" then 2 else 1/2)
          + calculateRelevanceScore c career := rfl
    have h2 : rawScore { c with rating := some r2 } career
        = getProviderScore c.provider + r2 * (3/2)
          + min ((c.enrollmentCount.getD 0 : ℚ) / 50000) 2
          + (if c.price = "Free" then 2 else 1/2)
          + calculateRelevanceScore c career := rfl
    rw [h1, h2]
    have : r1 * (3/2) ≤ r2 * (3/2) := by linarith
    linarith
  · have hfree : rawScore { c with price := "Free" } career
        = rawScore { c with price := p } career + 3/2 := by
      have h1 : rawScore { c with price := "Free" } career
          = getProviderScore c.provider + c.rating.getD 4 * (3/2)
            + min ((c.enrollmentCount.getD 0 : ℚ) / 50000) 2
            + (if ("Free" : String) = "Free" then 2 else 1/2)
            + calculateRelevanceScore c career := rfl
      have h2 : rawScore { c with price := p } career
          = getProviderScore c.provider + c.rating.getD 4 * (3/2)
            + min ((c.enrollmentCount.getD 0 : ℚ) / 50000) 2
            + (if p = "Free" then 2 else 1/2)
            + calculateRelevanceScore c career := rfl
      rw [h1, h2, if_pos rfl, if_neg hp]
      ring
    rw [hfree, round2_add_three_halves]
  · have hfree : round2 (rawScore { c with price := "Free" } career)
        = round2 (rawScore { c with price := p } career) + 3/2 := by
      have h1 : rawScore { c with price := "Free" } career
          = getProviderScore c.provider + c.rating.getD 4 * (3/2)
            + min ((c.enrollmentCount.getD 0 : ℚ) / 50000) 2
            + (if ("Free" : String) = "Free" then 2 else 1/2)
            + calculateRelevanceScore c career := rfl
      have h2 : rawScore { c with price := p } career
          = getProviderScore c.provider + c.rating.getD 4 * (3/2)
            + min ((c.enrollmentCount.getD 0 : ℚ) / 50000) 2
            + (if p = "Free" then 2 else 1/2)
            + calculateRelevanceScore c career := rfl
      rw [show rawScore { c with price := "Free" } career
          = rawScore { c with price := p } career + 3/2 by
        rw [h1, h2, if_pos rfl, if_neg hp]; ring]
      exact round2_add_three_halves _
    rw [hfree]
    linarith

/-- Witness for C9 at a concrete candidate. -/
theorem score_monotonicity_witness :
    ((4 : ℚ) ≤ 9/2 ∧ ("Paid" : String) ≠ "Free") ∧
    round2 (rawScore { sampleCourse with rating := some 4 } "Data Scientist")
      ≤ round2 (rawScore { sampleCourse with rating := some (9/2) } "Data Scientist") ∧
    round2 (rawScore { sampleCourse with price := "Free" } "Data Scientist")
      = round2 (rawScore { sampleCourse with price := "Paid" } "Data Scientist") + 3/2 := by
  have h := score_monotonicity sampleCourse "Data Scientist" 4 (9/2) "Paid"
    (by norm_num) (by decide)
  exact ⟨⟨by norm_num, by decide⟩, h.1, h.2.1⟩

/-! ### C10: ranking is a frame-preserving permutation -/

/-- C10: Ranking returns a permutation of its input — no candidate dropped,
duplicated, or synthesized (the empty list maps to the empty list) — and for
each candidate only the `score` field is modified: erasing the score field
on both sides yields permutation-equal lists, so every other field of every
candidate is unchanged. -/
theorem rankCourses_framePermutation (courses : List Course) (userLevel career : String) :
    rankCourses [] userLevel career = [] ∧
    ((rankCourses courses userLevel career).map clearScore).Perm
      (courses.map clearScore) := by
  constructor
  · rfl
  · by_cases h : courses.isEmpty
    · rw [List.isEmpty_iff] at h
      subst h
      simp [rankCourses]
    · rw [rankCourses, if_neg h]
      refine ((List.perm_insertionSort scoreGE _).map clearScore).trans ?_
      rw [List.map_map]
      have : clearScore ∘ (fun course =>
          { course with score := round2 (rawScore course career) }) = clearScore := by
        funext c
        rfl
      rw [this]

/-! ### C2: decision-tree navigation algorithm -/

theorem firstMatch_eq_find (answers : List (String × Edge)) (r : ℚ) :
    firstMatch answers r
      = (answers.find? fun p => decide (p.2.threshold ≤ r)).map fun p => p.2.next := by
  induction answers with
  | nil => rfl
  | cons hd tl ih =>
    obtain ⟨k, e⟩ := hd
    by_cases hc : e.threshold ≤ r
    · simp [firstMatch, List.find?, hc]
    · simp [firstMatch, List.find?, hc, ih]

theorem navigateTree_of_lookup {tree : DecisionTree} {node : String} {n : TreeNode}
    (r : ℚ) (h : tree.lookup node = some n) :
    navigateTree tree node r =
      match firstMatch n.answers r with
      | some nxt => nxt
      | none => node := by
  simp only [navigateTree, h]

theorem firstMatch_cons (k : String) (e : Edge) (rest : List (String × Edge)) (r : ℚ) :
    firstMatch ((k, e) :: rest) r
      = if e.threshold ≤ r then some e.next else firstMatch rest r := rfl

/-- C2: For every node and every rating in [0, 1], navigation returns the
node unchanged when it is terminal (absent from the tree); otherwise it
returns the `next` of the first edge, in declaration order, whose threshold
is ≤ the rating, staying on the current node when no edge matches.  On the
default tree: Math at 0.8 → Math_High, Math_High at 0.9 → HighProg,
HighProg at 0.7 → Data Scientist. -/
theorem navigateTree_spec (tree : DecisionTree) (node : String) (r : ℚ)
    (h : 0 ≤ r ∧ r ≤ 1) :
    (tree.lookup node = none → navigateTree tree node r = node) ∧
    (∀ n : TreeNode, tree.lookup node = some n →
      navigateTree tree node r
        = (((n.answers.find? fun p => decide (p.2.threshold ≤ r)).map
            fun p => p.2.next).getD node)) ∧
    navigateTree getDefaultTree "Math" (8/10) = "Math_High" ∧
    navigateTree getDefaultTree "Math_High" (9/10) = "HighProg" ∧
    navigateTree getDefaultTree "HighProg" (7/10) = "Data Scientist" := by
  refine ⟨?_, ?_, ?_, ?_, ?_⟩
  · intro hn
    simp only [navigateTree, hn]
  · intro n hn
    rw [navigateTree_of_lookup r hn, firstMatch_eq_find]
    cases (n.answers.find? fun p => decide (p.2.threshold ≤ r)) with
    | none => rfl
    | some p => rfl
  · simp [navigateTree, getDefaultTree, List.lookup, firstMatch]
    norm_num
  · simp [navigateTree, getDefaultTree, List.lookup, firstMatch]
    norm_num
  · simp [navigateTree, getDefaultTree, List.lookup, firstMatch]
    norm_num

/-- Witness for C2 at node "Math" with rating 0.8. -/
theorem navigateTree_spec_witness :
    ((0 : ℚ) ≤ 8/10 ∧ (8/10 : ℚ) ≤ 1) ∧
    navigateTree getDefaultTree "Math" (8/10) = "Math_High" :=
  ⟨⟨by norm_num, by norm_num⟩,
    (navigateTree_spec getDefaultTree "Math" (8/10) ⟨by norm_num, by norm_num⟩).2.2.1⟩

/-! ### C3: out-of-range rating is rejected without navigating -/

/-- C3: For every assessment state and every rating outside [0, 1],
processing the answer reports the invalid-input error to the caller and
leaves the assessment state (in particular the current node) unchanged: no
navigation happens. -/
theorem processAnswer_invalid (st : AppState) (r : ℚ) (h : r < 0 ∨ 1 < r) :
    processAnswer st r = (st, some invalidInputMsg) ∧
    (processAnswer st r).1 = st ∧
    (processAnswer st r).1.currentNode = st.currentNode := by
  have hcond : ¬(0 ≤ r ∧ r ≤ 1) := by
    rcases h with h | h
    · exact fun hc => absurd hc.1 (not_le.mpr h)
    · exact fun hc => absurd hc.2 (not_le.mpr h)
  have heq : processAnswer st r = (st, some invalidInputMsg) := by
    rw [processAnswer, if_pos hcond]
  exact ⟨heq, by rw [heq], by rw [heq]⟩

/-- Witness for C3 at rating 2. -/
theorem processAnswer_invalid_witness :
    ((2 : ℚ) < 0 ∨ (1 : ℚ) < 2) ∧
    processAnswer ⟨"Math", []⟩ 2 = (⟨"Math", []⟩, some invalidInputMsg) :=
  ⟨Or.inr (by norm_num),
    (processAnswer_invalid ⟨"Math", []⟩ 2 (Or.inr (by norm_num))).1⟩

/-! ### C4: cache round-trip and eager staleness eviction -/

theorem lookup_cachePut (cache : Cache) (key : String) (v : List Course) (t : ℚ) :
    (cachePut cache key v t).lookup key = some ⟨v, t⟩ := by
  simp [cachePut, List.lookup]

theorem lookup_cacheDel (cache : Cache) (key : String) :
    (cacheDel cache key).lookup key = none := by
  induction cache with
  | nil => rfl
  | cons hd tl ih =>
    obtain ⟨k, e⟩ := hd
    by_cases hk : k = key
    · subst hk
      simpa [cacheDel, List.filter_cons] using ih
    · simp only [cacheDel, List.filter_cons] at ih ⊢
      have hbk : (key == k) = false := by
        simp [Ne.symm hk]
      simp [bne_iff_ne, hk, List.lookup, hbk, ih]

/-- Shared: a lookup miss makes `cacheGet` a clean miss leaving the cache
unchanged. -/
theorem cacheGet_of_lookup_none {cache : Cache} {key : String}
    (h : cache.lookup key = none) (t : ℚ) : cacheGet cache key t = (none, cache) := by
  have htoo : isCacheTooOld cache key t = false := by
    simp only [isCacheTooOld, h]
  have hval : isCacheValid cache key t = false := by
    simp only [isCacheValid, h]
  rw [cacheGet]
  simp [htoo, hval]

/-- C4: After `put (career, level) v` at time `tPut`, a lookup while the
entry's age is under one week returns exactly `v` (and evicts nothing); once
the age exceeds one week the entry is eagerly removed from the store and the
lookup is a clean miss; and any later lookup on the evicted key is again a
clean miss, never returning the expired data. -/
theorem cache_roundTrip_staleness (cache : Cache) (key : String) (v : List Course)
    (tPut tGet : ℚ) :
    (tGet - tPut < cacheExpiry →
      cacheGet (cachePut cache key v tPut) key tGet
        = (some v, cachePut cache key v tPut)) ∧
    (cacheExpiry < tGet - tPut →
      (cacheGet (cachePut cache key v tPut) key tGet).1 = none ∧
      ((cacheGet (cachePut cache key v tPut) key tGet).2).lookup key = none) ∧
    (∀ cache2 : Cache, cache2.lookup key = none → ∀ t : ℚ,
      cacheGet cache2 key t = (none, cache2)) := by
  refine ⟨?_, ?_, fun cache2 h t => cacheGet_of_lookup_none h t⟩
  · intro h
    have htoo : isCacheTooOld (cachePut cache key v tPut) key tGet = false := by
      simp only [isCacheTooOld, lookup_cachePut]
      simp [not_lt.mpr (le_of_lt h)]
    have hval : isCacheValid (cachePut cache key v tPut) key tGet = true := by
      simp only [isCacheValid, lookup_cachePut]
      simp [h]
    rw [cacheGet]
    simp [htoo, hval, lookup_cachePut]
  · intro h
    have htoo : isCacheTooOld (cachePut cache key v tPut) key tGet = true := by
      simp only [isCacheTooOld, lookup_cachePut]
      simp [h]
    have hdel : (cacheDel (cachePut cache key v tPut) key).lookup key = none :=
      lookup_cacheDel _ key
    have hval : isCacheValid (cacheDel (cachePut cache key v tPut) key) key tGet = false := by
      simp only [isCacheValid, hdel]
    rw [cacheGet]
    simp [htoo, hval, hdel]

/-- Witness for C4: fresh hit after 1 second, eviction after 1 000 000
seconds (more than a week). -/
theorem cache_roundTrip_staleness_witness :
    ((1 : ℚ) - 0 < cacheExpiry ∧ cacheExpiry < (1000000 : ℚ) - 0) ∧
    cacheGet (cachePut [] "Data Scientist_beginner" [sampleCourse] 0)
        "Data Scientist_beginner" 1
      = (some [sampleCourse], cachePut [] "Data Scientist_beginner" [sampleCourse] 0) ∧
    (cacheGet (cachePut [] "Data Scientist_beginner" [sampleCourse] 0)
        "Data Scientist_beginner" 1000000).1 = none ∧
    ((cacheGet (cachePut [] "Data Scientist_beginner" [sampleCourse] 0)
        "Data Scientist_beginner" 1000000).2).lookup "Data Scientist_beginner" = none := by
  have h := cache_roundTrip_staleness [] "Data Scientist_beginner" [sampleCourse] 0 1000000
  have h1 := cache_roundTrip_staleness [] "Data Scientist_beginner" [sampleCourse] 0 1
  refine ⟨⟨by norm_num [cacheExpiry], by norm_num [cacheExpiry]⟩,
    h1.1 (by norm_num [cacheExpiry]), h.2.1 (by norm_num [cacheExpiry])⟩

/-! ### C5: fallback injection and the no-hard-fail guarantee -/

theorem rankCourses_length (courses : List Course) (userLevel career : String) :
    (rankCourses courses userLevel career).length = courses.length := by
  by_cases h : courses.isEmpty
  · rw [List.isEmpty_iff] at h
    subst h
    rfl
  · rw [rankCourses, if_neg h, (List.perm_insertionSort scoreGE _).length_eq,
      List.length_map]

/-- C5: On a cache miss, whenever the combined external candidate pool has
fewer than 20 elements, search appends the fixed fallback set before
ranking; in particular with zero external candidates the search still
succeeds and returns exactly the 2 fallback candidates, ranked. -/
theorem searchCourses_fallback (cache : Cache) (career userLevel : String)
    (youtubeCourses githubCourses : List Course) (now : ℚ)
    (hmiss : cache.lookup (cacheKey career userLevel) = none) :
    (youtubeCourses.length + githubCourses.length < 20 →
      (searchCourses cache career userLevel youtubeCourses githubCourses now).1
        = (rankCourses (youtubeCourses ++ githubCourses
            ++ getFallbackCourses career userLevel) userLevel career).take 5) ∧
    (searchCourses cache career userLevel [] [] now).1
      = (rankCourses (getFallbackCourses career userLevel) userLevel career).take 5 ∧
    ((searchCourses cache career userLevel [] [] now).1).length = 2 := by
  have hget := cacheGet_of_lookup_none hmiss now
  have hzero : (searchCourses cache career userLevel [] [] now).1
      = (rankCourses (getFallbackCourses career userLevel) userLevel career).take 5 := by
    rw [searchCourses, hget]
    simp [getFallbackCourses]
  refine ⟨?_, hzero, ?_⟩
  · intro hlen
    rw [searchCourses, hget]
    have : (youtubeCourses ++ githubCourses).length < 20 := by
      rw [List.length_append]
      exact hlen
    simp only [this, if_pos, List.append_assoc]
  · rw [hzero, List.length_take, rankCourses_length]
    rfl

/-- Witness for C5: empty cache, zero external candidates. -/
theorem searchCourses_fallback_witness :
    (([] : Cache).lookup (cacheKey "Astronaut" "beginner") = none ∧
      (0 : ℕ) + 0 < 20) ∧
    ((searchCourses [] "Astronaut" "beginner" [] [] 0).1).length = 2 :=
  ⟨⟨rfl, by norm_num⟩,
    (searchCourses_fallback [] "Astronaut" "beginner" [] [] 0 rfl).2.2⟩

/-! ### C6: parser relevance filters -/

theorem leadMatch_length {needle hay : List Char} (h : leadMatch needle hay = true) :
    needle.length ≤ hay.length := by
  induction needle generalizing hay with
  | nil => simp
  | cons c cs ih =>
    cases hay with
    | nil => simp [leadMatch] at h
    | cons b bs =>
      rw [leadMatch, Bool.and_eq_true] at h
      simpa using ih h.2

theorem isSub_length {needle hay : List Char} (h : isSub needle hay = true) :
    needle.length ≤ hay.length := by
  induction hay with
  | nil =>
    rw [isSub, List.isEmpty_iff] at h
    simp [h]
  | cons c cs ih =>
    rw [isSub, Bool.or_eq_true] at h
    rcases h with h | h
    · exact leadMatch_length h
    · exact le_trans (ih h) (by simp)

theorem lowerStr_length (s : String) : (lowerStr s).length = s.length := by
  show (s.data.map Char.toLower).length = s.data.length
  exact List.length_map _ _

theorem containsSubstr_length {hay needle : String}
    (h : containsSubstr hay needle = true) : needle.length ≤ hay.length :=
  isSub_length h

/-- C6: In both provider families a parsed candidate is kept only if its
extracted raw title is long enough (more than 15 characters for the video
provider; more than 4 — forced by the shortest keyword — for the repository
provider) AND the lower-cased title contains at least one keyword of the
family's learning-intent keyword set; every kept candidate's stored title
derives from such a match. -/
theorem parser_relevance_filter :
    (∀ (oracle : YoutubeMeta) (rawMatches : List (String × String))
        (searchTerm : String) (c : Course),
      c ∈ parseYoutubeResults oracle rawMatches searchTerm →
      ∃ m ∈ rawMatches, 15 < m.2.length ∧
        (youtubeKeywords.any fun keyword => containsSubstr (lowerStr m.2) keyword) = true ∧
        c.title = cleanTitle m.2) ∧
    (∀ (oracle : GithubMeta) (rawMatches : List (String × String))
        (searchTerm : String) (c : Course),
      c ∈ parseGithubResults oracle rawMatches searchTerm →
      ∃ m ∈ rawMatches, 4 < m.2.length ∧
        (githubKeywords.any fun keyword => containsSubstr (lowerStr m.2) keyword) = true ∧
        c.title = "GitHub: " ++ m.2) := by
  constructor
  · intro oracle rawMatches searchTerm c hc
    rw [parseYoutubeResults] at hc
    obtain ⟨m, hm, rfl⟩ := List.mem_map.mp hc
    obtain ⟨hm_take, hm_pred⟩ := List.mem_filter.mp hm
    rw [Bool.and_eq_true, decide_eq_true_eq] at hm_pred
    exact ⟨m, List.mem_of_mem_take hm_take, hm_pred.1, hm_pred.2, rfl⟩
  · intro oracle rawMatches searchTerm c hc
    rw [parseGithubResults] at hc
    obtain ⟨m, hm, rfl⟩ := List.mem_map.mp hc
    obtain ⟨hm_take, hm_pred⟩ := List.mem_filter.mp hm
    refine ⟨m, List.mem_of_mem_take hm_take, ?_, hm_pred, rfl⟩
    rw [List.any_eq_true] at hm_pred
    obtain ⟨keyword, hkw, hsub⟩ := hm_pred
    have hlen : keyword.length ≤ m.2.length := by
      have := containsSubstr_length hsub
      rwa [lowerStr_length] at this
    have hkw5 : 5 ≤ keyword.length := by
      simp only [githubKeywords, List.mem_cons, List.not_mem_nil, or_false] at hkw
      rcases hkw with rfl | rfl | rfl | rfl | rfl <;> decide
    omega

/-- Sample extracted matches and metadata oracle for the C6 witness. -/
def sampleYtMatches : List (String × String) :=
  [("dQw4w9WgXcQ", "Python for data science full course")]

def sampleYtOracle : YoutubeMeta :=
  fun _ => (4, "3 hours", 1000)

def sampleYtCourse : Course :=
  { title := cleanTitle "Python for data science full course",
    url := "https://www.youtube.com/watch?v=dQw4w9WgXcQ",
    provider := "YouTube",
    level := "beginner",
    rating := some 4,
    duration := "3 hours",
    instructors := ["YouTube Instructor"],
    enrollmentCount := some 1000,
    price := "Free",
    language := "English",
    score := 0,
    searchedFor := "python" }

/-- Witness for C6 at a concrete kept YouTube match. -/
theorem parser_relevance_filter_witness :
    sampleYtCourse ∈ parseYoutubeResults sampleYtOracle sampleYtMatches "python" ∧
    ∃ m ∈ sampleYtMatches, 15 < m.2.length ∧
      (youtubeKeywords.any fun keyword => containsSubstr (lowerStr m.2) keyword) = true ∧
      sampleYtCourse.title = cleanTitle m.2 := by
  have hmem : sampleYtCourse ∈ parseYoutubeResults sampleYtOracle sampleYtMatches "python" := by
    decide
  exact ⟨hmem, parser_relevance_filter.1 sampleYtOracle sampleYtMatches "python"
    sampleYtCourse hmem⟩

/-! ### C7: query builder determinism, dedup, unknown-key fallbacks -/

/-- C7: `buildQueries` is deterministic given the static keyword tables (two
invocations with equal inputs yield the same list, elements and order), its
output is duplicate-free, an unknown career makes the lower-cased career
label the sole base term (so with an unknown level the output is exactly
that single term, and in general every query is built from that base), and
an unknown level contributes no level phrase (the output is just the
deduplicated base-term list). -/
theorem getSearchTerms_spec (career level : String) :
    (∀ career2 level2, career = career2 → level = level2 →
      getSearchTerms career level = getSearchTerms career2 level2) ∧
    (getSearchTerms career level).Nodup ∧
    (careerKeywords.lookup career = none → levelKeywords.lookup level = none →
      getSearchTerms career level = [lowerStr career]) ∧
    (levelKeywords.lookup level = none →
      getSearchTerms career level
        = (((careerKeywords.lookup career).getD [lowerStr career]).take 2).dedup) ∧
    (careerKeywords.lookup career = none →
      getSearchTerms career level
        = ((((levelKeywords.lookup level).getD []).take 1).map
            (fun levelTerm => lowerStr career ++ " " ++ levelTerm)
          ++ [lowerStr career]).dedup) := by
  refine ⟨?_, ?_, ?_, ?_, ?_⟩
  · intro career2 level2 hc hl
    subst hc
    subst hl
    rfl
  · rw [getSearchTerms]
    exact List.nodup_dedup _
  · intro hc hl
    rw [getSearchTerms, hc, hl]
    simp
  · intro hl
    rw [getSearchTerms, hl]
    simp only [Option.getD_none, List.take_nil, List.map_nil, List.nil_append]
    congr 1
    induction ((careerKeywords.lookup career).getD [lowerStr career]).take 2 with
    | nil => rfl
    | cons hd tl ih => simp [List.flatMap_cons, ih]
  · intro hc
    rw [getSearchTerms, hc]
    simp [List.flatMap_cons]

/-- Witness for C7 at an unknown career and an unknown level. -/
theorem getSearchTerms_spec_witness :
    (careerKeywords.lookup "Quantum Plumber" = none ∧
      levelKeywords.lookup "guru" = none) ∧
    getSearchTerms "Quantum Plumber" "guru" = [lowerStr "Quantum Plumber"] :=
  ⟨⟨rfl, rfl⟩, (getSearchTerms_spec "Quantum Plumber" "guru").2.2.1 rfl rfl⟩

/-! ### C8: title normalization -/

/-- No two adjacent whitespace characters (collapsed-runs invariant). -/
def noTwoWs (a b : Char) : Prop :=
  ¬(a.isWhitespace = true ∧ b.isWhitespace = true)

theorem mem_substNonWord {cs : List Char} {c : Char} (h : c ∈ substNonWord cs) :
    isWordChar c = true ∨ c.isWhitespace = true := by
  rw [substNonWord] at h
  obtain ⟨c0, _, rfl⟩ := List.mem_map.mp h
  by_cases hc : (isWordChar c0 || c0.isWhitespace) = true
  · rw [if_pos hc]
    exact (Bool.or_eq_true _ _).mp hc
  · rw [if_neg hc]
    right
    decide

theorem mem_collapseWs {cs : List Char} {flag : Bool} {c : Char}
    (h : c ∈ collapseWs flag cs) :
    c = ' ' ∨ (c.isWhitespace = false ∧ c ∈ cs) := by
  induction cs generalizing flag with
  | nil => simp [collapseWs] at h
  | cons hd tl ih =>
    by_cases hw : hd.isWhitespace
    · cases flag with
      | true =>
        rw [show collapseWs true (hd :: tl) = collapseWs true tl by
          simp [collapseWs, hw]] at h
        rcases ih h with h' | h'
        · exact Or.inl h'
        · exact Or.inr ⟨h'.1, List.mem_cons_of_mem hd h'.2⟩
      | false =>
        rw [show collapseWs false (hd :: tl) = ' ' :: collapseWs true tl by
          simp [collapseWs, hw]] at h
        rcases List.mem_cons.mp h with rfl | h'
        · exact Or.inl rfl
        · rcases ih h' with h'' | h''
          · exact Or.inl h''
          · exact Or.inr ⟨h''.1, List.mem_cons_of_mem hd h''.2⟩
    · rw [show collapseWs flag (hd :: tl) = hd :: collapseWs false tl by
        simp [collapseWs, hw]] at h
      rcases List.mem_cons.mp h with rfl | h'
      · exact Or.inr ⟨Bool.not_eq_true _ ▸ eq_false_of_ne_true hw, List.mem_cons_self _ _⟩
      · rcases ih h' with h'' | h''
        · exact Or.inl h''
        · exact Or.inr ⟨h''.1, List.mem_cons_of_mem hd h''.2⟩

theorem collapseWs_true_head {cs : List Char} {c : Char}
    (h : (collapseWs true cs).head? = some c) : c.isWhitespace = false := by
  induction cs with
  | nil => simp [collapseWs] at h
  | cons hd tl ih =>
    by_cases hw : hd.isWhitespace
    · rw [show collapseWs true (hd :: tl) = collapseWs true tl by
        simp [collapseWs, hw]] at h
      exact ih h
    · rw [show collapseWs true (hd :: tl) = hd :: collapseWs false tl by
        simp [collapseWs, hw]] at h
      rw [List.head?_cons, Option.some_inj] at h
      subst h
      exact eq_false_of_ne_true hw

theorem chain'_collapseWs (flag : Bool) (cs : List Char) :
    List.Chain' noTwoWs (collapseWs flag cs) := by
  induction cs generalizing flag with
  | nil => simp [collapseWs]
  | cons hd tl ih =>
    by_cases hw : hd.isWhitespace
    · cases flag with
      | true =>
        rw [show collapseWs true (hd :: tl) = collapseWs true tl by
          simp [collapseWs, hw]]
        exact ih true
      | false =>
        rw [show collapseWs false (hd :: tl) = ' ' :: collapseWs true tl by
          simp [collapseWs, hw]]
        refine List.chain'_cons'.mpr ⟨?_, ih true⟩
        intro y hy
        intro ⟨_, hy2⟩
        rw [collapseWs_true_head hy] at hy2
        exact Bool.false_ne_true hy2
    · rw [show collapseWs flag (hd :: tl) = hd :: collapseWs false tl by
        simp [collapseWs, hw]]
      refine List.chain'_cons'.mpr ⟨?_, ih false⟩
      intro y hy
      intro ⟨hy1, _⟩
      exact hw hy1

theorem dropWhile_exists_append (p : Char → Bool) (l : List Char) :
    ∃ t, t ++ l.dropWhile p = l := by
  induction l with
  | nil => exact ⟨[], rfl⟩
  | cons hd tl ih =>
    by_cases hp : p hd
    · obtain ⟨t, ht⟩ := ih
      exact ⟨hd :: t, by simp [List.dropWhile_cons, hp, ht]⟩
    · exact ⟨[], by simp [List.dropWhile_cons, hp]⟩

theorem dropWhile_head_false {p : Char → Bool} {l : List Char} {c : Char}
    (h : (l.dropWhile p).head? = some c) : p c = false := by
  induction l with
  | nil => simp at h
  | cons hd tl ih =>
    by_cases hp : p hd
    · rw [List.dropWhile_cons, if_pos hp] at h
      exact ih h
    · rw [List.dropWhile_cons, if_neg hp, List.head?_cons, Option.some_inj] at h
      subst h
      exact eq_false_of_ne_true hp

theorem stripWs_isInfix (cs : List Char) : stripWs cs <:+: cs := by
  obtain ⟨t1, ht1⟩ := dropWhile_exists_append Char.isWhitespace cs
  obtain ⟨t2, ht2⟩ :=
    dropWhile_exists_append Char.isWhitespace (cs.dropWhile Char.isWhitespace).reverse
  refine ⟨t1, t2.reverse, ?_⟩
  have hrev : stripWs cs ++ t2.reverse = cs.dropWhile Char.isWhitespace := by
    rw [stripWs, ← List.reverse_append, ht2, List.reverse_reverse]
  rw [List.append_assoc, hrev, ht1]

theorem mem_of_isInfix {l₁ l₂ : List Char} {c : Char} (h : l₁ <:+: l₂) (hc : c ∈ l₁) :
    c ∈ l₂ := by
  obtain ⟨s, t, rfl⟩ := h
  simp [hc]

theorem stripWs_head_false {cs : List Char} {c : Char}
    (h : (stripWs cs).head? = some c) : c.isWhitespace = false := by
  rw [stripWs, List.head?_reverse] at h
  obtain ⟨t2, ht2⟩ :=
    dropWhile_exists_append Char.isWhitespace (cs.dropWhile Char.isWhitespace).reverse
  have hne : (cs.dropWhile Char.isWhitespace).reverse.dropWhile Char.isWhitespace ≠ [] := by
    intro hnil
    rw [hnil] at h
    simp at h
  have hlast : ((cs.dropWhile Char.isWhitespace).reverse.dropWhile Char.isWhitespace).getLast?
      = (cs.dropWhile Char.isWhitespace).head? := by
    rw [← List.getLast?_append_of_ne_nil t2 hne, ht2, List.getLast?_reverse]
  rw [hlast] at h
  exact dropWhile_head_false h

theorem stripWs_getLast_false {cs : List Char} {c : Char}
    (h : (stripWs cs).getLast? = some c) : c.isWhitespace = false := by
  rw [stripWs, List.getLast?_reverse] at h
  exact dropWhile_head_false h

/-- C8 counterexample: the claim says every non-alphanumeric, non-space
character is replaced, but the source's `\w` regex class keeps underscores:
`_clean_title("a_b") = "a_b"`, and `_` is neither alphanumeric nor a space. -/
theorem cleanTitle_claim_counterexample :
    cleanTitle "a_b" = "a_b" ∧ '_' ∈ (cleanTitle "a_b").toList ∧
    ¬('_'.isAlphanum = true) ∧ '_' ≠ ' ' := by
  refine ⟨by decide, by decide, by decide, by decide⟩

/-- C8 (amended): the title-cleaning operation replaces every character that
is neither a word character (alphanumeric or underscore) nor whitespace with
a space, collapses whitespace runs (no two adjacent whitespace characters
survive), and trims both ends (the first and last characters, when present,
are not whitespace); every surviving character is a word character or a
single space. -/
theorem cleanTitle_amended (s : String) :
    (∀ c ∈ (cleanTitle s).toList, isWordChar c = true ∨ c = ' ') ∧
    List.Chain' noTwoWs (cleanTitle s).toList ∧
    (∀ c : Char, ((cleanTitle s).toList.head? = some c → c.isWhitespace = false) ∧
      ((cleanTitle s).toList.getLast? = some c → c.isWhitespace = false)) := by
  have htl : (cleanTitle s).toList = stripWs (collapseWs false (substNonWord s.data)) := rfl
  refine ⟨?_, ?_, ?_⟩
  · intro c hc
    rw [htl] at hc
    have hcol : c ∈ collapseWs false (substNonWord s.data) :=
      mem_of_isInfix (stripWs_isInfix _) hc
    rcases mem_collapseWs hcol with rfl | ⟨hws, hsub⟩
    · exact Or.inr rfl
    · rcases mem_substNonWord hsub with hword | hws'
      · exact Or.inl hword
      · rw [hws] at hws'
        exact absurd hws' Bool.false_ne_true
  · rw [htl]
    exact List.Chain'.infix (chain'_collapseWs false _) (stripWs_isInfix _)
  · intro c
    rw [htl]
    exact ⟨fun h => stripWs_head_false h, fun h => stripWs_getLast_false h⟩

/-- Witness for C8 (amended) at a concrete input. -/
theorem cleanTitle_amended_witness :
    'a' ∈ (cleanTitle "a_b").toList ∧ (isWordChar 'a' = true ∨ 'a' = ' ') :=
  ⟨by decide, (cleanTitle_amended "a_b").1 'a' (by decide)⟩

end CareerAdvisor
